import Mathlib

/-!
Verification of the Weex HTML5 JS runtime bridge, shallowly embedded in
Lean 4 from the two source files:

* `src/html5/default/app/ctrl.js` — instance control from native
  (`normalize`, `callTasks`, `updateActions`, `callback`, `fireEvent`, …);
* `src/html5/runtime/index.js` — framework/instance registries, the
  bundle-version sniffer (`checkVersion`, `prepareInstance`,
  `createInstance`, the generated per-instance entry points).

Pure functions become Lean functions; mutation of the per-instance app
object and of the process-wide registry becomes explicit state passing.
External collaborators (the virtual-DOM document, its listener and
differ, the native transport, the host timer) are abstracted exactly at
the interfaces the source uses, with observable interactions recorded in
an effect log.
-/

namespace Weex

/--
JS values as they can cross the bridge, as classified by the `typof`
helper used by `normalize` (`Object.prototype.toString`-based tags:
undefined, null, regexp, date, number, string, boolean, array, object,
function, other).  A document element is an `object` that additionally
satisfies `v instanceof renderer.Element`; it is modelled as its own
constructor carrying its `ref` id.  A `regexp` carries its `toString()`
form, a `date` its `toISOString()` form (both produced by the host), a
`number` its decimal form, an `other` (e.g. a symbol) its
`JSON.stringify` form; `obj` carries an opaque identity for a plain
object and `func` the identity of a live function.
-/
inductive JSValue where
  | undef
  | null
  | regexp (srcForm : String)
  | date (isoForm : String)
  | num (rep : String)
  | str (s : String)
  | jbool (b : Bool)
  | arr (elems : List JSValue)
  | obj (oid : Nat)
  | element (ref : String)
  | func (fid : Nat)
  | other (jsonForm : String)

/-- A bridge task: a method name and its ordered argument list. -/
structure Task where
  method : String
  args : List JSValue

/--
Observable interactions of the app-control layer with its collaborators:
the document differ's `flush()`, the listener's `updateFinish()` signal,
the invocation of an element's event handler by `app.doc.fireEvent`, and
a `sendTasks(instanceId, tasks, callbackId)` call on the native
transport.
-/
inductive Effect where
  | differFlushed
  | updateFinished
  | handlerInvoked (ref : String)
  | tasksSent (instanceId : String) (tasks : List Task) (callbackId : String)

/--
The per-instance app state visible to `ctrl.js`, together with the
abstracted document collaborator.  `uid` is the monotonically increasing
per-instance counter and `callbacks` the callback table
(`app.callbacks`, callback id to the identity of the stored function;
`none` models both an absent and an `undefined` slot, matching the
`typeof callback === 'function'` test).  `docPresent` models the
truthiness of `app.doc && app.doc.listener`; `refExists` models
`app.doc.getRef(ref)` resolving to a live element; `handlerRes ref type
e` is the value `app.doc.fireEvent(el, type, e, domChanges)` returns for
that element (the document dispatcher is an out-of-scope collaborator);
`updates` is the listener's pending update queue
(`app.doc.listener.updates`); `effects` is the log of observable
collaborator interactions, appended in program order.
-/
structure App where
  id : String
  uid : Nat
  callbacks : Nat → Option Nat
  docPresent : Bool
  refExists : String → Bool
  handlerRes : String → String → JSValue → JSValue
  updates : List Task
  effects : List Effect

/--
Embeds `normalize(v, app)` (src/html5/default/app/ctrl.js, lines
325-351).  The switch on `typof(v)` is rendered as a match on the value
classification; the `v instanceof renderer.Element` test inside the
number/string/boolean/array/object cases selects the `element`
constructor.  A function is stored under the pre-incremented counter
(`app.callbacks[++app.uid] = v`) and the counter's decimal string is
returned.  Returns the normalized value and the updated app state.
-/
def normalize (v : JSValue) (app : App) : JSValue × App :=
  match v with
  | JSValue.undef => (JSValue.str "", app)
  | JSValue.null => (JSValue.str "", app)
  | JSValue.regexp srcForm => (JSValue.str srcForm, app)
  | JSValue.date isoForm => (JSValue.str isoForm, app)
  | JSValue.num rep => (JSValue.num rep, app)
  | JSValue.str s => (JSValue.str s, app)
  | JSValue.jbool b => (JSValue.jbool b, app)
  | JSValue.arr elems => (JSValue.arr elems, app)
  | JSValue.obj oid => (JSValue.obj oid, app)
  | JSValue.element ref => (JSValue.str ref, app)
  | JSValue.func fid =>
      let newId := app.uid + 1
      (JSValue.str (toString newId),
       { app with
           uid := newId,
           callbacks := fun i => if i = newId then some fid else app.callbacks i })
  | JSValue.other jsonForm => (JSValue.str jsonForm, app)

/-- Normalizes an argument list left to right, threading the app state
(the `task.args.map(arg => normalize(arg, app))` loop of `callTasks`). -/
def normalizeArgs : List JSValue → App → List JSValue × App
  | [], app => ([], app)
  | a :: rest, app =>
      let (a', app1) := normalize a app
      let (rest', app2) := normalizeArgs rest app1
      (a' :: rest', app2)

/-- Normalizes every argument of every task in order, threading the app
state (the `tasks.forEach` loop of `callTasks`). -/
def normalizeTasks : List Task → App → List Task × App
  | [], app => ([], app)
  | t :: ts, app =>
      let (args', app1) := normalizeArgs t.args app
      let (ts', app2) := normalizeTasks ts app1
      ({ t with args := args' } :: ts', app2)

/--
Embeds `callTasks(app, tasks)` (ctrl.js, lines 306-316) on an array of
tasks (the single-task wrapping `if (typof(tasks) !== 'array') tasks =
[tasks]` is the identity on the array inputs reaching it from
`updateActions`): normalizes every argument of every task and ships the
batch as `sendTasks(app.id, tasks, '-1')` on the transport, recorded as
a `tasksSent` effect.
-/
def callTasks (app : App) (tasks : List Task) : App :=
  let (tasks', app1) := normalizeTasks tasks app
  { app1 with
      effects := app1.effects ++ [Effect.tasksSent app1.id tasks' "-1"] }

/--
Embeds `updateActions(app)` (ctrl.js, lines 289-299): triggers
`app.differ.flush()` (recorded as `differFlushed`), then — when the
document and listener are live and the pending queue is non-empty —
drains `app.doc.listener.updates` into the task list, resets the queue
to `[]`, and calls `callTasks`; otherwise nothing further happens.
-/
def updateActions (app : App) : App :=
  let app1 := { app with effects := app.effects ++ [Effect.differFlushed] }
  if app1.docPresent && !app1.updates.isEmpty then
    callTasks { app1 with updates := [] } app1.updates
  else
    app1

/-- Condition under which `callback` clears the stored slot:
`typeof ifKeepAlive === 'undefined' || ifKeepAlive === false`
(ctrl.js, line 274). -/
def clearsSlot (ifKeepAlive : JSValue) : Bool :=
  match ifKeepAlive with
  | JSValue.undef => true
  | JSValue.jbool false => true
  | _ => false

/-- Outcome of a `callback` entry-point call: either the stored function
(identified by `fid`) was invoked with the given data, or an explicit
`Error` value was returned. -/
inductive CbOutcome where
  | invoked (fid : Nat) (data : JSValue)
  | err (msg : String)

/--
Embeds `callback(app, callbackId, data, ifKeepAlive)` (ctrl.js, lines
267-283).  If the table holds a function at `callbackId` it is invoked
with `data`; the slot is set to `undefined` exactly when `ifKeepAlive`
is `undefined` or strictly `=== false`; then `updateActions` runs and
`updateFinish` is signalled.  Otherwise an explicit `Error` is returned
and nothing changes.
-/
def callback (app : App) (callbackId : Nat) (data : JSValue)
    (ifKeepAlive : JSValue) : CbOutcome × App :=
  match app.callbacks callbackId with
  | some fid =>
      let app1 :=
        if clearsSlot ifKeepAlive then
          { app with
              callbacks := fun i => if i = callbackId then none else app.callbacks i }
        else app
      let app2 := updateActions app1
      let app3 := { app2 with effects := app2.effects ++ [Effect.updateFinished] }
      (CbOutcome.invoked fid data, app3)
  | none =>
      (CbOutcome.err ("invalid callback id \"" ++ toString callbackId ++ "\""), app)

/-- An event target reference as received by `fireEvent`: a single
element reference or an ordered candidate list (a JS array). -/
inductive ERef where
  | single (ref : String)
  | multi (refs : List String)

/--
Embeds the single-reference path of `fireEvent` (ctrl.js, lines
248-257): resolve `ref` through `app.doc.getRef`; on success dispatch
via `app.doc.fireEvent` (recorded as `handlerInvoked`, producing
`app.handlerRes ref type e`), run `updateActions`, signal
`updateFinish`, and return the handler's result; an unresolved reference
yields an explicit `Error`.
-/
def fireEventSingle (app : App) (ref : String) (type : String) (e : JSValue) :
    Except String JSValue × App :=
  if app.refExists ref then
    let result := app.handlerRes ref type e
    let app1 := { app with effects := app.effects ++ [Effect.handlerInvoked ref] }
    let app2 := updateActions app1
    let app3 := { app2 with effects := app2.effects ++ [Effect.updateFinished] }
    (Except.ok result, app3)
  else
    (Except.error ("invalid element reference \"" ++ ref ++ "\""), app)

/--
Embeds the `ref.some((ref) => app.fireEvent(ref, type, e) !== false)`
scan of the array branch of `fireEvent` (ctrl.js, lines 242-246).
Modelled from the spec: `app.fireEvent` is an `App` method defined in
`src/html5/default/app/index.js`, which is not included under `src/`;
per spec section 4.5 the per-reference dispatch resolves the reference,
dispatches, flushes and signals, and returns the handler's result —
i.e. it is exactly the single-reference path `fireEventSingle`.  The
scan stops at the first candidate whose dispatch result is not strictly
`=== false` (an `Error` result also stops it); its boolean result is
discarded.
-/
def fireMulti (app : App) (refs : List String) (type : String) (e : JSValue) : App :=
  match refs with
  | [] => app
  | r :: rest =>
      match fireEventSingle app r type e with
      | (Except.ok (JSValue.jbool false), app1) => fireMulti app1 rest type e
      | (_, app1) => app1

/--
Embeds `fireEvent(app, ref, type, e, domChanges)` (ctrl.js, lines
240-258).  On an array reference it runs the candidate scan and returns
`undefined` (modelled `Except.ok JSValue.undef`); on a single reference
it runs the single-reference path.  `domChanges` is forwarded to the
document dispatcher, which is abstracted by `handlerRes`, so it does not
appear as a parameter of the model.
-/
def fireEvent (app : App) (ref : ERef) (type : String) (e : JSValue) :
    Except String JSValue × App :=
  match ref with
  | ERef.multi refs => (Except.ok JSValue.undef, fireMulti app refs type e)
  | ERef.single r => fireEventSingle app r type e

/-! ## Version sniffer (src/html5/runtime/index.js) -/

/--
JSON values as produced by the host's `JSON.parse` on a version-header
capture.  The capture of `versionRegExp` contains no closing brace
before its final one, so a nested object can never occur in it and is
not represented; arrays, strings, numbers (kept as their source text),
booleans and null can.
-/
inductive JVal where
  | jstr (s : String)
  | jnum (raw : String)
  | jtrue
  | jfalse
  | jnull
  | jarr (elems : List JVal)

/-- A parsed JSON object: its member list in source order. -/
def JObj : Type := List (String × JVal)

/-- JSON insignificant whitespace (space, tab, line feed, carriage
return). -/
def isJsonWS (c : Char) : Bool :=
  c = ' ' || c = '\t' || c = '\n' || c = '\r'

/-- Drops leading JSON whitespace. -/
def skipWS : List Char → List Char
  | [] => []
  | c :: cs => if isJsonWS c then skipWS cs else c :: cs

/-- Value of a hexadecimal digit, if any. -/
def hexVal (c : Char) : Option Nat :=
  if '0' ≤ c ∧ c ≤ '9' then some (c.toNat - '0'.toNat)
  else if 'a' ≤ c ∧ c ≤ 'f' then some (c.toNat - 'a'.toNat + 10)
  else if 'A' ≤ c ∧ c ≤ 'F' then some (c.toNat - 'A'.toNat + 10)
  else none

/-- Translation of a single-character JSON string escape. -/
def escChar (c : Char) : Option Char :=
  match c with
  | '"' => some '"'
  | '\\' => some '\\'
  | '/' => some '/'
  | 'b' => some (Char.ofNat 8)
  | 'f' => some (Char.ofNat 12)
  | 'n' => some '\n'
  | 'r' => some '\r'
  | 't' => some '\t'
  | _ => none

/--
Parses the body of a JSON string after its opening quote, returning the
decoded characters and the remaining input past the closing quote.
Unescaped control characters and invalid escapes fail, as in
`JSON.parse`.
-/
def parseStrBody : List Char → Option (List Char × List Char)
  | [] => none
  | '"' :: rest => some ([], rest)
  | '\\' :: 'u' :: h1 :: h2 :: h3 :: h4 :: rest => do
      let v1 ← hexVal h1
      let v2 ← hexVal h2
      let v3 ← hexVal h3
      let v4 ← hexVal h4
      let (s, r) ← parseStrBody rest
      return (Char.ofNat (((v1 * 16 + v2) * 16 + v3) * 16 + v4) :: s, r)
  | '\\' :: e :: rest => do
      let c ← escChar e
      let (s, r) ← parseStrBody rest
      return (c :: s, r)
  | c :: rest =>
      if c.toNat < 32 then none
      else do
        let (s, r) ← parseStrBody rest
        return (c :: s, r)

/-- Parses a JSON integer part: `0`, or a nonzero digit followed by
digits (leading zeros are invalid JSON). -/
def parseIntPart : List Char → Option (List Char × List Char)
  | '0' :: rest => some (['0'], rest)
  | c :: rest =>
      if c.isDigit then
        let ds := rest.takeWhile Char.isDigit
        some (c :: ds, rest.dropWhile Char.isDigit)
      else none
  | [] => none

/-- Parses an optional JSON fraction part (`.` followed by one or more
digits). -/
def parseFracPart (cs : List Char) : Option (List Char × List Char) :=
  match cs with
  | '.' :: rest =>
      let ds := rest.takeWhile Char.isDigit
      if ds.isEmpty then none
      else some ('.' :: ds, rest.dropWhile Char.isDigit)
  | _ => some ([], cs)

/-- Parses an optional JSON exponent part (`e`/`E`, optional sign, one
or more digits). -/
def parseExpPart (cs : List Char) : Option (List Char × List Char) :=
  match cs with
  | c :: rest =>
      if c = 'e' ∨ c = 'E' then
        let (sign, rest1) :=
          match rest with
          | s :: r => if s = '+' ∨ s = '-' then ([s], r) else ([], rest)
          | [] => ([], rest)
        let ds := rest1.takeWhile Char.isDigit
        if ds.isEmpty then none
        else some (c :: sign ++ ds, rest1.dropWhile Char.isDigit)
      else some ([], cs)
  | [] => some ([], cs)

/-- Parses a JSON number, returning its source text and the remaining
input. -/
def parseJNum (cs : List Char) : Option (List Char × List Char) :=
  let (neg, cs1) :=
    match cs with
    | '-' :: rest => ((['-'] : List Char), rest)
    | _ => ([], cs)
  match parseIntPart cs1 with
  | none => none
  | some (ip, cs2) =>
      match parseFracPart cs2 with
      | none => none
      | some (fp, cs3) =>
          match parseExpPart cs3 with
          | none => none
          | some (ep, cs4) => some (neg ++ ip ++ fp ++ ep, cs4)

mutual

/-- Parses one JSON value (string, number, boolean, null or array; a
nested object cannot occur inside a version-header capture, see `JVal`).
The fuel argument dominates the input length and makes the mutual
recursion structural. -/
def parseVal : Nat → List Char → Option (JVal × List Char)
  | 0, _ => none
  | fuel + 1, cs =>
      match cs with
      | '"' :: rest =>
          (parseStrBody rest).map (fun p => (JVal.jstr (String.mk p.1), p.2))
      | 't' :: 'r' :: 'u' :: 'e' :: rest => some (JVal.jtrue, rest)
      | 'f' :: 'a' :: 'l' :: 's' :: 'e' :: rest => some (JVal.jfalse, rest)
      | 'n' :: 'u' :: 'l' :: 'l' :: rest => some (JVal.jnull, rest)
      | '[' :: rest =>
          match skipWS rest with
          | ']' :: rest1 => some (JVal.jarr [], rest1)
          | cs1 =>
              match parseItems fuel cs1 with
              | some (xs, rest1) => some (JVal.jarr xs, rest1)
              | none => none
      | _ =>
          (parseJNum cs).map (fun p => (JVal.jnum (String.mk p.1), p.2))

/-- Parses the non-empty element list of a JSON array, including the
closing bracket. -/
def parseItems : Nat → List Char → Option (List JVal × List Char)
  | 0, _ => none
  | fuel + 1, cs => do
      let (v, r) ← parseVal fuel cs
      match skipWS r with
      | ',' :: r1 => do
          let (xs, r2) ← parseItems fuel (skipWS r1)
          return (v :: xs, r2)
      | ']' :: r1 => return ([v], r1)
      | _ => none

end

/-- Parses the non-empty member list of a JSON object, including the
closing brace (written `\x7d`), returning the members in source order. -/
def parseMemberList : Nat → List Char → Option (JObj × List Char)
  | 0, _ => none
  | fuel + 1, cs =>
      match skipWS cs with
      | '"' :: r => do
          let (key, r1) ← parseStrBody r
          match skipWS r1 with
          | ':' :: r2 => do
              let (v, r3) ← parseVal fuel (skipWS r2)
              match skipWS r3 with
              | ',' :: r4 => do
                  let (rest, r5) ← parseMemberList fuel r4
                  return ((String.mk key, v) :: rest, r5)
              | '\x7d' :: r4 => return ([(String.mk key, v)], r4)
              | _ => none
          | _ => none
      | _ => none

/--
Models the host's `JSON.parse` applied to a version-header capture
(`JSON.parse(result[1])` in `checkVersion`, src/html5/runtime/index.js
line 44).  `JSON.parse` is a JS-engine builtin with no source in this
repository; this model covers exactly the JSON fragment reachable
through the `versionRegExp` capture, which always starts with `\x7b`,
ends with `\x7d` and contains no other closing brace: an object whose
member values are strings, numbers, booleans, null or (nested) arrays
of these.  Any other input makes `JSON.parse` throw, which
`checkVersion` catches; that is `none` here.
-/
def jsonParseObj (s : String) : Option JObj :=
  match skipWS s.data with
  | '\x7b' :: rest =>
      match skipWS rest with
      | '\x7d' :: rest1 => if (skipWS rest1).isEmpty then some [] else none
      | _ =>
          match parseMemberList (s.length + 1) rest with
          | some (members, rest1) =>
              if (skipWS rest1).isEmpty then some members else none
          | none => none
  | _ => none

/-- Property lookup on a parsed JSON object.  As with a JS object
literal built by `JSON.parse`, a later duplicate member overrides an
earlier one. -/
def jobjGet : JObj → String → Option JVal
  | [], _ => none
  | (k, v) :: rest, key =>
      match jobjGet rest key with
      | some r => some r
      | none => if k = key then some v else none

mutual

/-- JS property-key coercion of a JSON value (`frameworks[info.framework]`
stringifies a non-string key the way `toString` does: arrays join their
elements with commas, `true`/`false`/`null` and numbers print
themselves). -/
def jvalToKey : JVal → String
  | JVal.jstr s => s
  | JVal.jnum raw => raw
  | JVal.jtrue => "true"
  | JVal.jfalse => "false"
  | JVal.jnull => "null"
  | JVal.jarr xs => String.intercalate "," (jvalKeyList xs)

/-- Stringifies each element of a JSON array for key coercion. -/
def jvalKeyList : List JVal → List String
  | [] => []
  | v :: rest => jvalToKey v :: jvalKeyList rest

end

/--
Embeds the match of `versionRegExp = /^\/\/ *(\x7b[^\x7d]*\x7d) *\r?\n/`
against the bundle text (src/html5/runtime/index.js line 30), returning
the capture group.  The pattern is anchored at the start: two slashes,
any number of spaces, an opening brace, a greedy run of characters other
than the closing brace (in a JS regex a negated class also matches line
breaks), the closing brace, any number of spaces, an optional carriage
return and a line feed.  Because no alternative inside the pattern can
match anything else, the greedy run is the unique possible match and no
backtracking case is lost.
-/
def versionMatch (code : String) : Option String :=
  match code.data with
  | '/' :: '/' :: rest =>
      match rest.dropWhile (fun c => c = ' ') with
      | '\x7b' :: rest1 =>
          let body := rest1.takeWhile (fun c => c ≠ '\x7d')
          match rest1.dropWhile (fun c => c ≠ '\x7d') with
          | '\x7d' :: rest2 =>
              match (rest2.dropWhile (fun c => c = ' ')) with
              | '\r' :: '\n' :: _ => some (String.mk ('\x7b' :: body ++ ['\x7d']))
              | '\n' :: _ => some (String.mk ('\x7b' :: body ++ ['\x7d']))
              | _ => none
          | _ => none
      | _ => none
  | _ => none

/--
Embeds `checkVersion(code)` (src/html5/runtime/index.js, lines 39-49):
runs `versionRegExp` against the bundle text and, on a match,
`JSON.parse`s the capture; a parse failure is caught and leaves the
result `undefined` (`none`).  Never throws.
-/
def checkVersion (code : String) : Option JObj :=
  match versionMatch code with
  | some capture => jsonParseObj capture
  | none => none

/-- Characters up to and including the first line feed. -/
def firstLineChars : List Char → List Char
  | [] => []
  | c :: cs => if c = '\n' then [c] else c :: firstLineChars cs

/-- Prefix of a string up to and including its first line feed (the
whole string if it has none); used to state which part of a bundle the
sniffer may depend on. -/
def firstLine (s : String) : String :=
  String.mk (firstLineChars s.data)

/-! ## Framework and instance registries (src/html5/runtime/index.js) -/

/--
A registry entry of `instanceMap`, restricted to the fields the runtime
layer itself ever reads or writes: `framework` (the `.framework`
property, a JS property key, read back by the generated per-instance
entry points), `version` (the `.version` property of a sniffed info
object, `undefined` otherwise), and `shell` (the identity of a
framework-produced app shell stored by `prepareInstance`, `none` for a
placeholder `\x7b\x7d` or a sniffed info object).  Other properties of a
stored object are never inspected by this layer.
-/
structure Entry where
  framework : Option String
  version : Option JVal
  shell : Option Nat

/-- The empty-object placeholder `instanceMap[id] = \x7b\x7d` stored by
`prepareInstance` when the type names no registered framework with a
`prepareInstance` hook. -/
def placeholderEntry : Entry := ⟨none, none, none⟩

/--
A registered framework, as the runtime layer sees it (the `frameworks`
table is generated from `runtime/config` at build time and is external
input here).  `prepare` is the optional `prepareInstance` hook,
returning the identity of the app shell it builds; `create` and
`destroy` are the optional `createInstance`/`destroyInstance` methods —
`none` means the property is absent (invoking it would throw a
`TypeError`); a present method either returns a value (`Except.ok`) or
throws (`Except.error`), both abstracted as strings.
-/
structure RFramework where
  prepare : Option (String → Nat)
  create : Option (String → Except String String)
  destroy : Option (String → Except String String)

/-- The process-wide framework table, name to registered framework. -/
def Frameworks : Type := String → Option RFramework

/-- The process-wide `instanceMap`, id to entry. -/
def RegState : Type := String → Option Entry

/-- Stores an entry under an id (JS property assignment on
`instanceMap`). -/
def regSet (st : RegState) (id : String) (e : Entry) : RegState :=
  fun k => if k = id then some e else st k

/-- Removes an id (`delete instanceMap[id]`). -/
def regErase (st : RegState) (id : String) : RegState :=
  fun k => if k = id then none else st k

/--
Embeds `prepareInstance(id, type, config, data)`
(src/html5/runtime/index.js, lines 63-73).  `type = type || 'Weex'`
replaces an `undefined` or empty (falsy) type by the default name.  If
the named framework is registered and exposes `prepareInstance`, its
shell is stored and tagged with the framework name; otherwise an empty
placeholder is stored.  Either way the assignment overwrites any prior
entry for the id, and the function returns nothing.  `prepEntry`
computes the entry stored for the id; `prepareInstance` below performs
the assignment.
-/
def prepEntry (fws : Frameworks) (id : String) (type? : Option String) : Entry :=
  let t := match type? with
    | none => "Weex"
    | some s => if s = "" then "Weex" else s
  match fws t with
  | some fw =>
      match fw.prepare with
      | some prep => ⟨some t, none, some (prep id)⟩
      | none => placeholderEntry
  | none => placeholderEntry

/-- The `prepareInstance` entry point: unconditionally overwrites the
entry for `id` with `prepEntry` (a JS property assignment; any prior
entry for the id is silently replaced). -/
def prepareInstance (fws : Frameworks) (st : RegState) (id : String)
    (type? : Option String) : RegState :=
  regSet st id (prepEntry fws id type?)

/-- Result of a registry entry point: the delegate's returned value, an
explicit `new Error(...)` value returned by the registry layer, or an
exception propagating out. -/
inductive DResult where
  | value (v : String)
  | errVal (msg : String)
  | thrown (e : String)

/-- The sniffed info object of a bundle: the parsed header when
`checkVersion` yields one, the empty object otherwise
(`info = checkVersion(code) || \x7b\x7d`). -/
def sniffedInfo (code : String) : JObj :=
  match checkVersion code with
  | some o => o
  | none => []

/--
Resolves the framework name `createInstance` delegates to: the sniffed
`info.framework` key when it names a registered framework, the default
`'Weex'` otherwise (`if (!frameworks[info.framework]) info.framework =
'Weex'`; an absent `framework` property looks up
`frameworks[undefined]`, which is never registered).
-/
def resolveFramework (fws : Frameworks) (code : String) : String :=
  match jobjGet (sniffedInfo code) "framework" with
  | some v => if (fws (jvalToKey v)).isSome then jvalToKey v else "Weex"
  | none => "Weex"

/--
Everything observable about one `createInstance` call: the registry
state after it, its result, whether and with what the call assigned
`config.bundleVersion` (`some ver` records the assignment
`config.bundleVersion = info.version`, whose right-hand side may itself
be `undefined`), and which framework's `createInstance` method actually
ran (`none` when none did).
-/
structure CreateOut where
  st : RegState
  res : DResult
  stampedVersion : Option (Option JVal)
  delegated : Option String

/--
Embeds `createInstance(id, code, config, data)`
(src/html5/runtime/index.js, lines 83-97).  When an entry (even a
truthy placeholder object) already exists for the id, the function
returns an explicit `Error` at once: nothing is sniffed, stored, stamped
or delegated.  Otherwise it sniffs the bundle, resolves the framework
name with the `'Weex'` fallback, stores the fixed-up info object as the
entry, stamps `config.bundleVersion` with the sniffed version and
invokes the resolved framework's `createInstance`, returning its result
(a missing framework or method would make the call throw a
`TypeError`).  `createDelegateRes` is that delegated outcome on the
fresh-id path; `createInstance` below assembles the full observable
behaviour.
-/
def createDelegateRes (fws : Frameworks) (id : String) (code : String) : DResult :=
  match fws (resolveFramework fws code) with
  | some fw =>
      match fw.create with
      | some c =>
          match c id with
          | Except.ok v => DResult.value v
          | Except.error e => DResult.thrown e
      | none => DResult.thrown "TypeError: createInstance is not a function"
  | none => DResult.thrown "TypeError: cannot read property of undefined"

/-- Which framework's `createInstance` method actually runs on the
fresh-id path: the resolved one when it is registered and has the
method, none otherwise (those cases throw instead). -/
def createDelegated (fws : Frameworks) (code : String) : Option String :=
  match fws (resolveFramework fws code) with
  | some fw =>
      match fw.create with
      | some _ => some (resolveFramework fws code)
      | none => none
  | none => none

/-- The `createInstance` entry point (see `createDelegateRes`): an
existing entry — even a truthy placeholder — short-circuits to an
explicit `Error` with nothing stored, stamped or delegated; a fresh id
stores the fixed-up sniffed info, stamps the version and delegates. -/
def createInstance (fws : Frameworks) (st : RegState) (id : String)
    (code : String) : CreateOut :=
  match st id with
  | some _ =>
      ⟨st, DResult.errVal ("invalid instance id \"" ++ id ++ "\""), none, none⟩
  | none =>
      ⟨regSet st id
          ⟨some (resolveFramework fws code), jobjGet (sniffedInfo code) "version", none⟩,
        createDelegateRes fws id code,
        some (jobjGet (sniffedInfo code) "version"),
        createDelegated fws code⟩

/--
Embeds the `destroyInstance` entry point generated by
`genInstance('destroyInstance')` (src/html5/runtime/index.js, lines
126-140): the current entry is read, the id is deleted from
`instanceMap` before anything else, and only then — when the read entry
existed and its `framework` tag names a registered framework — is the
framework's `destroyInstance` invoked and its outcome returned (a
missing method throws a `TypeError`, and an exception out of the
delegate propagates); in every other case an explicit `Error` value is
returned.  `destroyDelegateRes` is the returned outcome, computed from
the entry as read before the deletion; `destroyInstance` pairs it with
the erased registry.
-/
def destroyDelegateRes (fws : Frameworks) (st : RegState) (id : String) : DResult :=
  let errRes := DResult.errVal ("invalid instance id \"" ++ id ++ "\"")
  match st id with
  | some entry =>
      match entry.framework with
      | some fname =>
          match fws fname with
          | some fw =>
              match fw.destroy with
              | some d =>
                  match d id with
                  | Except.ok v => DResult.value v
                  | Except.error e => DResult.thrown e
              | none =>
                  DResult.thrown "TypeError: destroyInstance is not a function"
          | none => errRes
      | none => errRes
  | none => errRes

/-- The `destroyInstance` entry point: the registry with `id` deleted,
paired with the outcome computed by `destroyDelegateRes` from the entry
saved before the deletion. -/
def destroyInstance (fws : Frameworks) (st : RegState) (id : String) :
    RegState × DResult :=
  (regErase st id, destroyDelegateRes fws st id)

/-! ## Observation helpers and invariants -/

/-- Event-handler invocations recorded in an effect log, in order. -/
def invokedList (l : List Effect) : List String :=
  l.filterMap (fun eff =>
    match eff with
    | Effect.handlerInvoked r => some r
    | _ => none)

/-- Number of differ flushes recorded in an effect log. -/
def flushCount (l : List Effect) : Nat :=
  l.countP (fun eff =>
    match eff with
    | Effect.differFlushed => true
    | _ => false)

/-- Whether a value is, at top level, a live function or a document
element — the two kinds of value `normalize` never returns. -/
def isLiveTop (v : JSValue) : Bool :=
  match v with
  | JSValue.func _ => true
  | JSValue.element _ => true
  | _ => false

mutual

/-- Whether a live function or document element appears anywhere inside
a value, including inside the elements of an array. -/
def containsLive : JSValue → Bool
  | JSValue.func _ => true
  | JSValue.element _ => true
  | JSValue.arr xs => containsLiveList xs
  | _ => false

/-- Whether any element of a list contains a live function or element. -/
def containsLiveList : List JSValue → Bool
  | [] => false
  | v :: rest => containsLive v || containsLiveList rest

end

/-- Callback-table invariant of an instance: every occupied callback id
is at most the per-instance counter, so the next allocated id
`uid + 1` can never collide with a function that could still fire. -/
def CbInv (app : App) : Prop :=
  ∀ i, (app.callbacks i).isSome = true → i ≤ app.uid

/--
Modelled from the spec: the app state a freshly created instance starts
from.  The `App` constructor lives in `src/html5/default/app/index.js`,
which is not included under `src/`; per spec section 3 an instance owns
an initially empty callback table and a per-instance counter, here
started at `0`, with the document collaborator abstracted by the given
fields.
-/
def initApp (id : String) (docPresent : Bool) (refExists : String → Bool)
    (handlerRes : String → String → JSValue → JSValue) : App :=
  { id := id
    uid := 0
    callbacks := fun _ => none
    docPresent := docPresent
    refExists := refExists
    handlerRes := handlerRes
    updates := []
    effects := [] }

/-! ## Concrete fixtures for witnesses and counterexamples -/

/-- An app with one live callback (id 1, function 7) and a quiescent
document, used by the C5 counterexample. -/
def c5App : App :=
  { id := "inst"
    uid := 1
    callbacks := fun i => if i = 1 then some 7 else none
    docPresent := false
    refExists := fun _ => false
    handlerRes := fun _ _ _ => JSValue.undef
    updates := []
    effects := [] }

/-- An app identical to `c5App`, used by the C5 witness. -/
def c5wApp : App :=
  { id := "inst"
    uid := 1
    callbacks := fun i => if i = 1 then some 7 else none
    docPresent := false
    refExists := fun _ => false
    handlerRes := fun _ _ _ => JSValue.undef
    updates := []
    effects := [] }

/-- An app with a function-free environment, used by the C1
counterexample. -/
def c1App : App :=
  { id := "inst"
    uid := 0
    callbacks := fun _ => none
    docPresent := false
    refExists := fun _ => false
    handlerRes := fun _ _ _ => JSValue.undef
    updates := []
    effects := [] }

/-- An app exposing elements `a`, `b`, `c` whose handler returns `false`
on `a` and `true` elsewhere, used by the C7 witness. -/
def c7App : App :=
  { id := "inst"
    uid := 0
    callbacks := fun _ => none
    docPresent := true
    refExists := fun r => r == "a" || r == "b" || r == "c"
    handlerRes := fun r _ _ => if r = "a" then JSValue.jbool false else JSValue.jbool true
    updates := []
    effects := [] }

/-- An app exposing one element `a` whose handler returns the string
`"handled"`, used by the C10 witness. -/
def c10App : App :=
  { id := "inst"
    uid := 0
    callbacks := fun _ => none
    docPresent := true
    refExists := fun r => r == "a"
    handlerRes := fun _ _ _ => JSValue.str "handled"
    updates := []
    effects := [] }

/-- An app with a live document and one pending task, used by the C9
witness. -/
def c9App : App :=
  { id := "wire"
    uid := 0
    callbacks := fun _ => none
    docPresent := true
    refExists := fun _ => false
    handlerRes := fun _ _ _ => JSValue.undef
    updates := [⟨"createBody", [JSValue.str "ok"]⟩]
    effects := [] }

/-- A framework table with one framework `Weex` whose `destroyInstance`
returns `"destroyed"`, used by the C2 witness. -/
def c2Fws : Frameworks :=
  fun n =>
    if n = "Weex" then
      some ⟨none, some (fun _ => Except.ok "created"), some (fun _ => Except.ok "destroyed")⟩
    else none

/-- A registry holding one instance `x` bound to `Weex`, used by the C2
witness. -/
def c2St : RegState :=
  fun k => if k = "x" then some ⟨some "Weex", none, none⟩ else none

/-- A framework table registering `Foo` and `Weex`, both with a
`createInstance` method, used by the C3 counterexample and witness and
the C8 witness. -/
def c3Fws : Frameworks :=
  fun n =>
    if n = "Foo" then some ⟨none, some (fun _ => Except.ok "foo-created"), none⟩
    else if n = "Weex" then some ⟨none, some (fun _ => Except.ok "weex-created"), none⟩
    else none

/-- A bundle whose header names framework `Foo`, version `1.0`. -/
def fooBundle : String :=
  "// \x7b\"framework\":\"Foo\",\"version\":\"1.0\"\x7d\ncode"

/-- The registry after preparing instance `x` with the unregistered type
`UnknownType` on an empty registry. -/
def c3St : RegState :=
  prepareInstance c3Fws (fun _ => none) "x" (some "UnknownType")

/-! ## Helper lemmas -/

@[simp] theorem normalize_id (v : JSValue) (app : App) :
    ((normalize v app).2).id = app.id := by
  cases v <;> rfl

@[simp] theorem normalize_docPresent (v : JSValue) (app : App) :
    ((normalize v app).2).docPresent = app.docPresent := by
  cases v <;> rfl

@[simp] theorem normalize_refExists (v : JSValue) (app : App) :
    ((normalize v app).2).refExists = app.refExists := by
  cases v <;> rfl

@[simp] theorem normalize_handlerRes (v : JSValue) (app : App) :
    ((normalize v app).2).handlerRes = app.handlerRes := by
  cases v <;> rfl

@[simp] theorem normalize_updates (v : JSValue) (app : App) :
    ((normalize v app).2).updates = app.updates := by
  cases v <;> rfl

@[simp] theorem normalize_effects (v : JSValue) (app : App) :
    ((normalize v app).2).effects = app.effects := by
  cases v <;> rfl

theorem normalize_uid_le (v : JSValue) (app : App) :
    app.uid ≤ ((normalize v app).2).uid := by
  cases v <;> simp [normalize]

theorem normalize_callbacks_le (v : JSValue) (app : App) (i : Nat)
    (h : i ≤ app.uid) : ((normalize v app).2).callbacks i = app.callbacks i := by
  cases v <;> simp [normalize]
  intro hi
  omega

theorem normalize_inv (v : JSValue) (app : App) (h : CbInv app) :
    CbInv ((normalize v app).2) := by
  cases v <;> simp [normalize, CbInv] at * <;> try exact h
  intro i hi
  by_cases hc : i = app.uid + 1
  · omega
  · simp [hc] at hi
    exact Nat.le_succ_of_le (h i hi)

theorem normalizeArgs_id (l : List JSValue) (app : App) :
    ((normalizeArgs l app).2).id = app.id := by
  induction l generalizing app with
  | nil => rfl
  | cons a rest ih => simp [normalizeArgs, ih]

theorem normalizeArgs_docPresent (l : List JSValue) (app : App) :
    ((normalizeArgs l app).2).docPresent = app.docPresent := by
  induction l generalizing app with
  | nil => rfl
  | cons a rest ih => simp [normalizeArgs, ih]

theorem normalizeArgs_refExists (l : List JSValue) (app : App) :
    ((normalizeArgs l app).2).refExists = app.refExists := by
  induction l generalizing app with
  | nil => rfl
  | cons a rest ih => simp [normalizeArgs, ih]

theorem normalizeArgs_handlerRes (l : List JSValue) (app : App) :
    ((normalizeArgs l app).2).handlerRes = app.handlerRes := by
  induction l generalizing app with
  | nil => rfl
  | cons a rest ih => simp [normalizeArgs, ih]

theorem normalizeArgs_updates (l : List JSValue) (app : App) :
    ((normalizeArgs l app).2).updates = app.updates := by
  induction l generalizing app with
  | nil => rfl
  | cons a rest ih => simp [normalizeArgs, ih]

theorem normalizeArgs_effects (l : List JSValue) (app : App) :
    ((normalizeArgs l app).2).effects = app.effects := by
  induction l generalizing app with
  | nil => rfl
  | cons a rest ih => simp [normalizeArgs, ih]

theorem normalizeArgs_uid_le (l : List JSValue) (app : App) :
    app.uid ≤ ((normalizeArgs l app).2).uid := by
  induction l generalizing app with
  | nil => exact Nat.le_refl _
  | cons a rest ih =>
      simp only [normalizeArgs]
      exact Nat.le_trans (normalize_uid_le a app) (ih (normalize a app).2)

theorem normalizeArgs_callbacks_le (l : List JSValue) (app : App) (i : Nat)
    (h : i ≤ app.uid) :
    ((normalizeArgs l app).2).callbacks i = app.callbacks i := by
  induction l generalizing app with
  | nil => rfl
  | cons a rest ih =>
      simp only [normalizeArgs]
      rw [ih (normalize a app).2 (Nat.le_trans h (normalize_uid_le a app))]
      exact normalize_callbacks_le a app i h

theorem normalizeArgs_inv (l : List JSValue) (app : App) (h : CbInv app) :
    CbInv ((normalizeArgs l app).2) := by
  induction l generalizing app with
  | nil => exact h
  | cons a rest ih =>
      simp only [normalizeArgs]
      exact ih (normalize a app).2 (normalize_inv a app h)

theorem normalizeTasks_id (ts : List Task) (app : App) :
    ((normalizeTasks ts app).2).id = app.id := by
  induction ts generalizing app with
  | nil => rfl
  | cons t rest ih => simp [normalizeTasks, ih, normalizeArgs_id]

theorem normalizeTasks_docPresent (ts : List Task) (app : App) :
    ((normalizeTasks ts app).2).docPresent = app.docPresent := by
  induction ts generalizing app with
  | nil => rfl
  | cons t rest ih => simp [normalizeTasks, ih, normalizeArgs_docPresent]

theorem normalizeTasks_refExists (ts : List Task) (app : App) :
    ((normalizeTasks ts app).2).refExists = app.refExists := by
  induction ts generalizing app with
  | nil => rfl
  | cons t rest ih => simp [normalizeTasks, ih, normalizeArgs_refExists]

theorem normalizeTasks_handlerRes (ts : List Task) (app : App) :
    ((normalizeTasks ts app).2).handlerRes = app.handlerRes := by
  induction ts generalizing app with
  | nil => rfl
  | cons t rest ih => simp [normalizeTasks, ih, normalizeArgs_handlerRes]

theorem normalizeTasks_updates (ts : List Task) (app : App) :
    ((normalizeTasks ts app).2).updates = app.updates := by
  induction ts generalizing app with
  | nil => rfl
  | cons t rest ih => simp [normalizeTasks, ih, normalizeArgs_updates]

theorem normalizeTasks_effects (ts : List Task) (app : App) :
    ((normalizeTasks ts app).2).effects = app.effects := by
  induction ts generalizing app with
  | nil => rfl
  | cons t rest ih => simp [normalizeTasks, ih, normalizeArgs_effects]

theorem normalizeTasks_uid_le (ts : List Task) (app : App) :
    app.uid ≤ ((normalizeTasks ts app).2).uid := by
  induction ts generalizing app with
  | nil => exact Nat.le_refl _
  | cons t rest ih =>
      simp only [normalizeTasks]
      exact Nat.le_trans (normalizeArgs_uid_le t.args app) (ih (normalizeArgs t.args app).2)

theorem normalizeTasks_callbacks_le (ts : List Task) (app : App) (i : Nat)
    (h : i ≤ app.uid) :
    ((normalizeTasks ts app).2).callbacks i = app.callbacks i := by
  induction ts generalizing app with
  | nil => rfl
  | cons t rest ih =>
      simp only [normalizeTasks]
      rw [ih (normalizeArgs t.args app).2
            (Nat.le_trans h (normalizeArgs_uid_le t.args app))]
      exact normalizeArgs_callbacks_le t.args app i h

theorem normalizeTasks_inv (ts : List Task) (app : App) (h : CbInv app) :
    CbInv ((normalizeTasks ts app).2) := by
  induction ts generalizing app with
  | nil => exact h
  | cons t rest ih =>
      simp only [normalizeTasks]
      exact ih (normalizeArgs t.args app).2 (normalizeArgs_inv t.args app h)

theorem normalize_congr (v : JSValue) (app app' : App)
    (h1 : app.uid = app'.uid) (h2 : app.callbacks = app'.callbacks) :
    (normalize v app).1 = (normalize v app').1 ∧
    ((normalize v app).2).uid = ((normalize v app').2).uid ∧
    ((normalize v app).2).callbacks = ((normalize v app').2).callbacks := by
  cases v <;> simp [normalize, h1, h2]

theorem normalizeArgs_congr (l : List JSValue) (app app' : App)
    (h1 : app.uid = app'.uid) (h2 : app.callbacks = app'.callbacks) :
    (normalizeArgs l app).1 = (normalizeArgs l app').1 ∧
    ((normalizeArgs l app).2).uid = ((normalizeArgs l app').2).uid ∧
    ((normalizeArgs l app).2).callbacks = ((normalizeArgs l app').2).callbacks := by
  induction l generalizing app app' with
  | nil => exact ⟨rfl, h1, h2⟩
  | cons a rest ih =>
      obtain ⟨e1, e2, e3⟩ := normalize_congr a app app' h1 h2
      obtain ⟨f1, f2, f3⟩ := ih (normalize a app).2 (normalize a app').2 e2 e3
      simp only [normalizeArgs]
      exact ⟨by rw [e1, f1], f2, f3⟩

theorem normalizeTasks_congr (ts : List Task) (app app' : App)
    (h1 : app.uid = app'.uid) (h2 : app.callbacks = app'.callbacks) :
    (normalizeTasks ts app).1 = (normalizeTasks ts app').1 ∧
    ((normalizeTasks ts app).2).uid = ((normalizeTasks ts app').2).uid ∧
    ((normalizeTasks ts app).2).callbacks = ((normalizeTasks ts app').2).callbacks := by
  induction ts generalizing app app' with
  | nil => exact ⟨rfl, h1, h2⟩
  | cons t rest ih =>
      obtain ⟨e1, e2, e3⟩ := normalizeArgs_congr t.args app app' h1 h2
      obtain ⟨f1, f2, f3⟩ := ih (normalizeArgs t.args app).2 (normalizeArgs t.args app').2 e2 e3
      simp only [normalizeTasks]
      exact ⟨by rw [e1, f1], f2, f3⟩

@[simp] theorem invokedList_append (a b : List Effect) :
    invokedList (a ++ b) = invokedList a ++ invokedList b := by
  simp [invokedList]

@[simp] theorem flushCount_append (a b : List Effect) :
    flushCount (a ++ b) = flushCount a + flushCount b := by
  simp [flushCount, List.countP_append]

theorem callTasks_id (app : App) (tasks : List Task) :
    (callTasks app tasks).id = app.id := by
  simp [callTasks, normalizeTasks_id]

theorem callTasks_docPresent (app : App) (tasks : List Task) :
    (callTasks app tasks).docPresent = app.docPresent := by
  simp [callTasks, normalizeTasks_docPresent]

theorem callTasks_refExists (app : App) (tasks : List Task) :
    (callTasks app tasks).refExists = app.refExists := by
  simp [callTasks, normalizeTasks_refExists]

theorem callTasks_handlerRes (app : App) (tasks : List Task) :
    (callTasks app tasks).handlerRes = app.handlerRes := by
  simp [callTasks, normalizeTasks_handlerRes]

theorem callTasks_updates (app : App) (tasks : List Task) :
    (callTasks app tasks).updates = app.updates := by
  simp [callTasks, normalizeTasks_updates]

theorem callTasks_effects (app : App) (tasks : List Task) :
    (callTasks app tasks).effects
      = app.effects
        ++ [Effect.tasksSent app.id (normalizeTasks tasks app).1 "-1"] := by
  simp [callTasks, normalizeTasks_effects, normalizeTasks_id]

theorem callTasks_uid_le (app : App) (tasks : List Task) :
    app.uid ≤ (callTasks app tasks).uid := by
  simp only [callTasks]
  exact normalizeTasks_uid_le tasks app

theorem callTasks_callbacks_le (app : App) (tasks : List Task) (i : Nat)
    (h : i ≤ app.uid) :
    (callTasks app tasks).callbacks i = app.callbacks i := by
  simp only [callTasks]
  exact normalizeTasks_callbacks_le tasks app i h

theorem callTasks_inv (app : App) (tasks : List Task) (h : CbInv app) :
    CbInv (callTasks app tasks) := by
  simp only [callTasks, CbInv]
  exact normalizeTasks_inv tasks app h

theorem updateActions_id (app : App) :
    (updateActions app).id = app.id := by
  simp only [updateActions]
  split
  · exact callTasks_id _ _
  · rfl

theorem updateActions_docPresent (app : App) :
    (updateActions app).docPresent = app.docPresent := by
  simp only [updateActions]
  split
  · exact callTasks_docPresent _ _
  · rfl

theorem updateActions_refExists (app : App) :
    (updateActions app).refExists = app.refExists := by
  simp only [updateActions]
  split
  · exact callTasks_refExists _ _
  · rfl

theorem updateActions_handlerRes (app : App) :
    (updateActions app).handlerRes = app.handlerRes := by
  simp only [updateActions]
  split
  · exact callTasks_handlerRes _ _
  · rfl

theorem updateActions_uid_le (app : App) :
    app.uid ≤ (updateActions app).uid := by
  simp only [updateActions]
  split
  · exact callTasks_uid_le
      { app with updates := [], effects := app.effects ++ [Effect.differFlushed] }
      app.updates
  · exact Nat.le_refl _

theorem updateActions_callbacks_le (app : App) (i : Nat) (h : i ≤ app.uid) :
    (updateActions app).callbacks i = app.callbacks i := by
  simp only [updateActions]
  split
  · exact callTasks_callbacks_le _ _ i h
  · rfl

theorem updateActions_inv (app : App) (h : CbInv app) :
    CbInv (updateActions app) := by
  simp only [updateActions]
  split
  · exact callTasks_inv _ _ h
  · exact h

theorem updateActions_invoked (app : App) :
    invokedList (updateActions app).effects = invokedList app.effects := by
  simp only [updateActions]
  split
  · rw [callTasks_effects]
    simp [invokedList]
  · simp [invokedList]

theorem updateActions_flushCount (app : App) :
    flushCount (updateActions app).effects = flushCount app.effects + 1 := by
  simp only [updateActions]
  split
  · rw [callTasks_effects]
    simp [flushCount, List.countP_append]
  · simp [flushCount, List.countP_append]

theorem fireEventSingle_fst (app : App) (r t : String) (e : JSValue)
    (h : app.refExists r = true) :
    (fireEventSingle app r t e).1 = Except.ok (app.handlerRes r t e) := by
  simp [fireEventSingle, h]

theorem fireEventSingle_refExists (app : App) (r t : String) (e : JSValue) :
    ((fireEventSingle app r t e).2).refExists = app.refExists := by
  simp only [fireEventSingle]
  split
  · simp [updateActions_refExists]
  · rfl

theorem fireEventSingle_handlerRes (app : App) (r t : String) (e : JSValue) :
    ((fireEventSingle app r t e).2).handlerRes = app.handlerRes := by
  simp only [fireEventSingle]
  split
  · simp [updateActions_handlerRes]
  · rfl

theorem fireEventSingle_invoked (app : App) (r t : String) (e : JSValue)
    (h : app.refExists r = true) :
    invokedList ((fireEventSingle app r t e).2).effects
      = invokedList app.effects ++ [r] := by
  simp only [fireEventSingle, h, if_true]
  rw [invokedList_append, updateActions_invoked]
  simp [invokedList]

/-! ## Claim theorems -/

/--
C1 (amended).  `normalize(v, app)` maps undefined and null to the empty
string, a regular expression to its string form, a date to its ISO-8601
string, a document element to its reference id, any other
number/string/boolean/array/object to itself unchanged, a function to a
freshly allocated per-app counter value stored in the app's callback
table and emitted as a numeric string, and any other value to its JSON
serialization; consequently the normalized result is never itself a
live function or element object.  (The original claim's stronger
consequence — that no live function or element ever appears anywhere in
a normalized result — fails, because arrays and objects are returned
unchanged together with their contents; see
`normalize_nested_function_counterexample`.)
-/
theorem normalize_classification (app : App) (src iso rep s jf ref : String)
    (b : Bool) (elems : List JSValue) (oid fid : Nat) :
    normalize JSValue.undef app = (JSValue.str "", app) ∧
    normalize JSValue.null app = (JSValue.str "", app) ∧
    normalize (JSValue.regexp src) app = (JSValue.str src, app) ∧
    normalize (JSValue.date iso) app = (JSValue.str iso, app) ∧
    normalize (JSValue.num rep) app = (JSValue.num rep, app) ∧
    normalize (JSValue.str s) app = (JSValue.str s, app) ∧
    normalize (JSValue.jbool b) app = (JSValue.jbool b, app) ∧
    normalize (JSValue.arr elems) app = (JSValue.arr elems, app) ∧
    normalize (JSValue.obj oid) app = (JSValue.obj oid, app) ∧
    normalize (JSValue.element ref) app = (JSValue.str ref, app) ∧
    (normalize (JSValue.func fid) app).1 = JSValue.str (toString (app.uid + 1)) ∧
    ((normalize (JSValue.func fid) app).2).uid = app.uid + 1 ∧
    ((normalize (JSValue.func fid) app).2).callbacks (app.uid + 1) = some fid ∧
    normalize (JSValue.other jf) app = (JSValue.str jf, app) ∧
    (∀ v, isLiveTop (normalize v app).1 = false) := by
  refine ⟨rfl, rfl, rfl, rfl, rfl, rfl, rfl, rfl, rfl, rfl, rfl, rfl, by simp [normalize],
    rfl, ?_⟩
  intro v
  cases v <;> rfl

/--
C1, counterexample to the claim as stated: normalizing the array
`[function]` returns it unchanged, so a live function does appear inside
a normalized result (the choke point only rewrites the top level of a
value).
-/
theorem normalize_nested_function_counterexample :
    normalize (JSValue.arr [JSValue.func 0]) c1App
      = (JSValue.arr [JSValue.func 0], c1App) ∧
    containsLive (JSValue.arr [JSValue.func 0]) = true := by
  exact ⟨rfl, rfl⟩

/--
C2.  `destroyInstance(id)` unconditionally removes `id` from the
instance registry: whatever the delegated teardown does — return a
value, throw, or be impossible to reach because the id is unknown or its
entry names no registered framework — the post state has no entry for
`id` and every other id is untouched.  An unknown id or an unresolvable
framework yields an explicit returned `Error` value, never a throw from
the registry layer; when the bound framework is registered and has the
method, the delegate's own outcome (returned value or thrown exception)
is passed through.
-/
theorem destroyInstance_unconditional_removal (fws : Frameworks) (st : RegState)
    (id : String) :
    ((destroyInstance fws st id).1 id = none) ∧
    (∀ k, k ≠ id → (destroyInstance fws st id).1 k = st k) ∧
    (st id = none →
      (destroyInstance fws st id).2
        = DResult.errVal ("invalid instance id \"" ++ id ++ "\"")) ∧
    (∀ e, st id = some e → e.framework = none →
      (destroyInstance fws st id).2
        = DResult.errVal ("invalid instance id \"" ++ id ++ "\"")) ∧
    (∀ e f, st id = some e → e.framework = some f → fws f = none →
      (destroyInstance fws st id).2
        = DResult.errVal ("invalid instance id \"" ++ id ++ "\"")) ∧
    (∀ e f fw d, st id = some e → e.framework = some f → fws f = some fw →
      fw.destroy = some d →
      (destroyInstance fws st id).2
        = (match d id with
            | Except.ok v => DResult.value v
            | Except.error ex => DResult.thrown ex)) := by
  refine ⟨?_, ?_, ?_, ?_, ?_, ?_⟩
  · simp [destroyInstance, regErase]
  · intro k hk
    simp [destroyInstance, regErase, hk]
  · intro h
    simp [destroyInstance, destroyDelegateRes, h]
  · intro e he hf
    simp [destroyInstance, destroyDelegateRes, he, hf]
  · intro e f he hf hw
    simp [destroyInstance, destroyDelegateRes, he, hf, hw]
  · intro e f fw d he hf hw hd
    simp only [destroyInstance, destroyDelegateRes, he, hf, hw, hd]

/--
C2, witness: on a registry holding instance `x` bound to the registered
framework `Weex`, destroying `x` removes the entry and returns the
delegate's value, and destroying the unknown id `y` returns an explicit
`Error` value.
-/
theorem destroyInstance_unconditional_removal_witness :
    ((destroyInstance c2Fws c2St "x").1 "x" = none ∧
      (destroyInstance c2Fws c2St "x").2 = DResult.value "destroyed") ∧
    ((destroyInstance c2Fws c2St "y").1 "y" = none ∧
      (destroyInstance c2Fws c2St "y").2
        = DResult.errVal "invalid instance id \"y\"") := by
  refine ⟨⟨(destroyInstance_unconditional_removal c2Fws c2St "x").1, ?_⟩,
    (destroyInstance_unconditional_removal c2Fws c2St "y").1, ?_⟩
  · have h := (destroyInstance_unconditional_removal c2Fws c2St "x").2.2.2.2.2
      ⟨some "Weex", none, none⟩ "Weex"
      ⟨none, some (fun _ => Except.ok "created"), some (fun _ => Except.ok "destroyed")⟩
      (fun _ => Except.ok "destroyed") (by rfl) (by rfl) (by rfl) (by rfl)
    exact h
  · exact (destroyInstance_unconditional_removal c2Fws c2St "y").2.2.1 (by rfl)

/--
C3 (amended).  `prepareInstance(id, 'UnknownType', config, data)` stores
an empty placeholder entry for `id` rather than returning an error, and
a second prepare for the same id silently overwrites the prior entry;
but a later `createInstance` for the same id does NOT resolve via bundle
sniffing: it sees the existing (truthy) entry, returns an explicit
invalid-instance error, performs no delegation and no version stamping,
and leaves the registry unchanged.  (The original claim's final clause
fails; see `prepared_then_create_counterexample`.)
-/
theorem prepareInstance_placeholder_create_error (fws : Frameworks)
    (st : RegState) (id t code : String) (ht : t ≠ "") (hf : fws t = none) :
    (prepareInstance fws st id (some t)) id = some placeholderEntry ∧
    (∀ ty1 ty2, prepareInstance fws (prepareInstance fws st id ty1) id ty2
        = prepareInstance fws st id ty2) ∧
    ((createInstance fws (prepareInstance fws st id (some t)) id code).res
        = DResult.errVal ("invalid instance id \"" ++ id ++ "\"")) ∧
    ((createInstance fws (prepareInstance fws st id (some t)) id code).delegated
        = none) ∧
    ((createInstance fws (prepareInstance fws st id (some t)) id code).stampedVersion
        = none) ∧
    ((createInstance fws (prepareInstance fws st id (some t)) id code).st id
        = some placeholderEntry) := by
  have hentry : (prepareInstance fws st id (some t)) id = some placeholderEntry := by
    simp [prepareInstance, prepEntry, regSet, ht, hf]
  refine ⟨hentry, ?_, ?_, ?_, ?_, ?_⟩
  · intro ty1 ty2
    funext k
    simp only [prepareInstance, regSet]
    by_cases hk : k = id <;> simp [hk]
  · simp [createInstance, hentry]
  · simp [createInstance, hentry]
  · simp [createInstance, hentry]
  · simp [createInstance, hentry]

/--
C3, counterexample to the claim as stated: with framework `Foo`
registered and a bundle whose header sniffs to `Foo@1.0`, a
`createInstance` for an id that was prepared with the unregistered type
`UnknownType` invokes no framework `createInstance`, returns an explicit
error and leaves the placeholder entry in place — it does not resolve
the framework via bundle sniffing.
-/
theorem prepared_then_create_counterexample :
    checkVersion fooBundle
      = some [("framework", JVal.jstr "Foo"), ("version", JVal.jstr "1.0")] ∧
    (c3Fws "Foo").isSome = true ∧
    c3St "x" = some placeholderEntry ∧
    (createInstance c3Fws c3St "x" fooBundle).delegated = none ∧
    (createInstance c3Fws c3St "x" fooBundle).res
      = DResult.errVal "invalid instance id \"x\"" ∧
    (createInstance c3Fws c3St "x" fooBundle).st "x" = some placeholderEntry := by
  exact ⟨rfl, rfl, rfl, rfl, rfl, rfl⟩

/--
C3, witness instantiating `prepareInstance_placeholder_create_error` at
the concrete unregistered type `UnknownType`.
-/
theorem prepareInstance_placeholder_create_error_witness :
    (prepareInstance c3Fws (fun _ => none) "x" (some "UnknownType")) "x"
      = some placeholderEntry ∧
    (createInstance c3Fws (prepareInstance c3Fws (fun _ => none) "x"
        (some "UnknownType")) "x" fooBundle).res
      = DResult.errVal "invalid instance id \"x\"" := by
  have h := prepareInstance_placeholder_create_error c3Fws (fun _ => none)
    "x" "UnknownType" fooBundle (by decide) (by rfl)
  exact ⟨h.1, h.2.2.1⟩

/--
C8.  `createInstance(id, code, config, data)` on a fresh id sniffs the
bundle header, resolves the framework with the `'Weex'` fallback
(unclassified or unregistered names fall back, a registered sniffed name
is kept), creates the registry entry carrying the resolved name and
sniffed version, stamps the sniffed version into the config as
`bundleVersion`, and delegates to the resolved framework's
`createInstance`; when an entry already exists for the id, the creation
path is not re-entered: no framework `createInstance` is invoked,
nothing is stamped, the registry is unchanged and an explicit error is
returned.
-/
theorem createInstance_fresh_and_existing (fws : Frameworks) (st : RegState)
    (id code : String) :
    (st id = none →
      (createInstance fws st id code).st id
          = some ⟨some (resolveFramework fws code),
              jobjGet (sniffedInfo code) "version", none⟩ ∧
      (∀ k, k ≠ id → (createInstance fws st id code).st k = st k) ∧
      (createInstance fws st id code).stampedVersion
          = some (jobjGet (sniffedInfo code) "version") ∧
      (∀ fw c, fws (resolveFramework fws code) = some fw → fw.create = some c →
        (createInstance fws st id code).delegated
            = some (resolveFramework fws code) ∧
        (createInstance fws st id code).res
            = (match c id with
                | Except.ok v => DResult.value v
                | Except.error ex => DResult.thrown ex))) ∧
    (jobjGet (sniffedInfo code) "framework" = none →
      resolveFramework fws code = "Weex") ∧
    (∀ v, jobjGet (sniffedInfo code) "framework" = some v →
      (fws (jvalToKey v)).isSome = false → resolveFramework fws code = "Weex") ∧
    (∀ v, jobjGet (sniffedInfo code) "framework" = some v →
      (fws (jvalToKey v)).isSome = true →
      resolveFramework fws code = jvalToKey v) ∧
    (∀ e, st id = some e →
      (createInstance fws st id code).st = st ∧
      (createInstance fws st id code).delegated = none ∧
      (createInstance fws st id code).stampedVersion = none ∧
      (createInstance fws st id code).res
          = DResult.errVal ("invalid instance id \"" ++ id ++ "\"")) := by
  refine ⟨?_, ?_, ?_, ?_, ?_⟩
  · intro h
    refine ⟨?_, ?_, ?_, ?_⟩
    · simp [createInstance, h, regSet]
    · intro k hk
      simp [createInstance, h, regSet, hk]
    · simp [createInstance, h]
    · intro fw c hfw hc
      constructor
      · simp [createInstance, h, createDelegated, hfw, hc]
      · simp [createInstance, h, createDelegateRes, hfw, hc]
  · intro h
    simp [resolveFramework, h]
  · intro v hv hreg
    simp [resolveFramework, hv, hreg]
  · intro v hv hreg
    simp [resolveFramework, hv, hreg]
  · intro e he
    refine ⟨?_, ?_, ?_, ?_⟩ <;> simp [createInstance, he]

/--
C8, witness instantiating `createInstance_fresh_and_existing` on an
empty registry with the `Foo@1.0` bundle and the table registering `Foo`
and `Weex`: the entry is created for `Foo`, the version is stamped, and
the delegation runs `Foo`'s `createInstance`.
-/
theorem createInstance_fresh_and_existing_witness :
    (createInstance c3Fws (fun _ => none) "y" fooBundle).st "y"
      = some ⟨some "Foo", some (JVal.jstr "1.0"), none⟩ ∧
    (createInstance c3Fws (fun _ => none) "y" fooBundle).stampedVersion
      = some (some (JVal.jstr "1.0")) ∧
    (createInstance c3Fws (fun _ => none) "y" fooBundle).delegated = some "Foo" ∧
    (createInstance c3Fws (fun _ => none) "y" fooBundle).res
      = DResult.value "foo-created" := by
  have h := (createInstance_fresh_and_existing c3Fws (fun _ => none)
    "y" fooBundle).1 (by rfl)
  have hdel := h.2.2.2 ⟨none, some (fun _ => Except.ok "foo-created"), none⟩
    (fun _ => Except.ok "foo-created") (by rfl) (by rfl)
  exact ⟨h.1, h.2.2.1, hdel.1, hdel.2⟩

/--
C4 (amended).  `checkVersion` matches the anchored pattern `//`,
spaces, a brace-delimited run of non-closing-brace characters (which, as
a JS negated character class, may include line breaks), the closing
brace, spaces, optional CR and a LF; on a match it JSON-parses the
braced run, so sniffing a `Foo@1.0` header followed by a newline and
code yields framework `Foo` and version `1.0` (with CRLF tolerated).
Content before the comment start, a missing header line, a header
without a following line break, or a JSON parse failure all yield no
info (`none`), never an error.  (The original claim's guarantee that the
sniffer never inspects past the first line break fails, because the
braced run may span a line break; see
`checkVersion_first_line_counterexample`.)
-/
theorem checkVersion_header_sniffing :
    (checkVersion fooBundle
        = some [("framework", JVal.jstr "Foo"), ("version", JVal.jstr "1.0")]) ∧
    (jobjGet (sniffedInfo fooBundle) "framework" = some (JVal.jstr "Foo")) ∧
    (jobjGet (sniffedInfo fooBundle) "version" = some (JVal.jstr "1.0")) ∧
    (checkVersion "// \x7b\"framework\":\"CRLF\"\x7d \r\nrest"
        = some [("framework", JVal.jstr "CRLF")]) ∧
    (∀ c rest, c ≠ '/' → checkVersion (String.mk (c :: rest)) = none) ∧
    (∀ c rest, c ≠ '/' → checkVersion (String.mk ('/' :: c :: rest)) = none) ∧
    (checkVersion "code with no header line" = none) ∧
    (checkVersion "// \x7bnot json\x7d\nrest" = none) ∧
    (checkVersion "// \x7b\"framework\":\"Foo\"\x7d more" = none) := by
  refine ⟨rfl, rfl, rfl, rfl, ?_, ?_, rfl, rfl, rfl⟩
  · intro c rest hc
    have hm : versionMatch (String.mk (c :: rest)) = none := by
      simp only [versionMatch]
      split
      · next heq =>
          have : c = '/' := by
            have h2 : c :: rest = '/' :: '/' :: _ := heq
            exact (List.cons.injEq _ _ _ _).mp h2 |>.1
          exact absurd this hc
      · rfl
    simp [checkVersion, hm]
  · intro c rest hc
    have hm : versionMatch (String.mk ('/' :: c :: rest)) = none := by
      simp only [versionMatch]
      split
      · next heq =>
          have h2 : '/' :: c :: rest = '/' :: '/' :: _ := heq
          have : c = '/' :=
            ((List.cons.injEq _ _ _ _).mp
              (((List.cons.injEq _ _ _ _).mp h2).2)).1
          exact absurd this hc
      · rfl
    simp [checkVersion, hm]

/--
C4, counterexample to the claim as stated: two bundles sharing the same
first line (a comment opening a brace that is not closed before the line
break) are distinguished by the sniffer — on one it even returns parsed
info — so `checkVersion` does inspect past the first line break, and a
bundle with no complete header on its first line can still yield info.
-/
theorem checkVersion_first_line_counterexample :
    firstLine "// \x7b\"framework\":\"Foo\"\n\x7d\nrest"
      = firstLine "// \x7b\"framework\":\"Foo\"\nXX" ∧
    checkVersion "// \x7b\"framework\":\"Foo\"\n\x7d\nrest"
      = some [("framework", JVal.jstr "Foo")] ∧
    checkVersion "// \x7b\"framework\":\"Foo\"\nXX" = none := by
  exact ⟨rfl, rfl, rfl⟩

/--
C4, witness instantiating the leading-content conjuncts of
`checkVersion_header_sniffing` at concrete characters.
-/
theorem checkVersion_header_sniffing_witness :
    ('x' ≠ '/' ∧ checkVersion (String.mk ('x' :: "// code".data)) = none) ∧
    ('*' ≠ '/' ∧ checkVersion (String.mk ('/' :: '*' :: " code".data)) = none) := by
  refine ⟨⟨by decide, ?_⟩, ⟨by decide, ?_⟩⟩
  · exact checkVersion_header_sniffing.2.2.2.2.1 'x' "// code".data (by decide)
  · exact checkVersion_header_sniffing.2.2.2.2.2.1 '*' " code".data (by decide)

/--
C5 (amended).  `callback(app, id, data, keepAlive)` returns an explicit
error when no callable is stored at `id`; otherwise it invokes the
stored function with `data` and clears the stored slot exactly when
`keepAlive` is omitted (`undefined`) or strictly `=== false` — any other
value, not only `true` (e.g. `null`), preserves the slot.  By default
(keepAlive omitted) a registered callback fires at most once and a
subsequent call with the same id returns an explicit error.  (The
original claim's "clears unless keepAlive is explicitly true" fails for
non-boolean truthiness-free values like `null`; see
`callback_keepalive_counterexample`.)
-/
theorem callback_single_shot (app : App) (cid : Nat) (data d2 k k2 : JSValue)
    (f : Nat) (hInv : CbInv app) (hf : app.callbacks cid = some f) :
    ((callback app cid data k).1 = CbOutcome.invoked f data) ∧
    (clearsSlot k = true → ((callback app cid data k).2).callbacks cid = none) ∧
    (clearsSlot k = false → ((callback app cid data k).2).callbacks cid = some f) ∧
    (clearsSlot k = true →
      (callback ((callback app cid data k).2) cid d2 k2).1
        = CbOutcome.err ("invalid callback id \"" ++ toString cid ++ "\"")) ∧
    (clearsSlot JSValue.undef = true ∧ clearsSlot (JSValue.jbool false) = true ∧
      clearsSlot (JSValue.jbool true) = false ∧ clearsSlot JSValue.null = false) ∧
    (∀ (app' : App) (j : Nat) (d' k' : JSValue), app'.callbacks j = none →
      (callback app' j d' k').1
        = CbOutcome.err ("invalid callback id \"" ++ toString j ++ "\"")) := by
  have hle : cid ≤ app.uid := hInv cid (by simp [hf])
  have hstep : ∀ (b : App), b.uid = app.uid →
      (updateActions b).callbacks cid = b.callbacks cid := by
    intro b hb
    exact updateActions_callbacks_le b cid (hb ▸ hle)
  have hcleared : clearsSlot k = true →
      ((callback app cid data k).2).callbacks cid = none := by
    intro hk
    simp only [callback, hf, hk, if_true]
    rw [hstep { app with
        callbacks := fun i => if i = cid then none else app.callbacks i } rfl]
    simp
  refine ⟨by simp [callback, hf], hcleared, ?_, ?_, ⟨rfl, rfl, rfl, rfl⟩, ?_⟩
  · intro hk
    simp only [callback, hf, hk]
    rw [if_neg (by simp), hstep app rfl]
    exact hf
  · intro hk
    have h2 := hcleared hk
    rcases hc : callback app cid data k with ⟨o, X⟩
    rw [hc] at h2
    simp only at h2
    show (callback X cid d2 k2).1
      = CbOutcome.err ("invalid callback id \"" ++ toString cid ++ "\"")
    simp [callback, h2]
  · intro app' j d' k' hnone
    simp [callback, hnone]

/--
C5, counterexample to the claim as stated: with `keepAlive = null`
(which is not explicitly `true`), the slot is NOT cleared and a second
`callback` call with the same id invokes the function again, where the
claim requires the slot to be cleared and the second call to error.
-/
theorem callback_keepalive_counterexample :
    (JSValue.null ≠ JSValue.jbool true) ∧
    (callback c5App 1 JSValue.undef JSValue.null).1
      = CbOutcome.invoked 7 JSValue.undef ∧
    ((callback c5App 1 JSValue.undef JSValue.null).2).callbacks 1 = some 7 ∧
    (callback ((callback c5App 1 JSValue.undef JSValue.null).2) 1
        JSValue.undef JSValue.null).1 = CbOutcome.invoked 7 JSValue.undef := by
  exact ⟨fun h => JSValue.noConfusion h, rfl, rfl, rfl⟩

/--
C5, witness instantiating `callback_single_shot` at a concrete app with
one stored callback and the default (omitted) keepAlive: the function
fires once, the slot is cleared, and the second call errors.
-/
theorem callback_single_shot_witness :
    (callback c5wApp 1 (JSValue.str "data") JSValue.undef).1
      = CbOutcome.invoked 7 (JSValue.str "data") ∧
    ((callback c5wApp 1 (JSValue.str "data") JSValue.undef).2).callbacks 1
      = none ∧
    (callback ((callback c5wApp 1 (JSValue.str "data") JSValue.undef).2) 1
        JSValue.undef JSValue.undef).1
      = CbOutcome.err "invalid callback id \"1\"" := by
  have hInv : CbInv c5wApp := by
    intro i h
    simp only [c5wApp] at h ⊢
    by_cases hi : i = 1
    · omega
    · simp [hi] at h
  have h := callback_single_shot c5wApp 1 (JSValue.str "data") JSValue.undef
    JSValue.undef JSValue.undef 7 hInv (by rfl)
  exact ⟨h.1, h.2.1 rfl, h.2.2.2.1 rfl⟩

/--
C6.  Callback ids allocated when `normalize` registers a function
strictly increase over an instance's lifetime: starting from the empty
callback table, every occupied id stays at most the counter under every
operation that touches the table (`normalize`, the flush path, and
`callback`), the counter never decreases, and registering a function
allocates exactly the incremented counter — an id that is provably
unoccupied — stores the function there, leaves every other slot (hence
every still-invocable earlier function) untouched, and returns the id as
a numeric string.  Two distinct registrations therefore never share an
id while both remain invocable.
-/
theorem callback_ids_monotone (app : App) (hInv : CbInv app) :
    (∀ id dp re hr, CbInv (initApp id dp re hr)) ∧
    (∀ v, CbInv ((normalize v app).2) ∧ app.uid ≤ ((normalize v app).2).uid) ∧
    (CbInv (updateActions app) ∧ app.uid ≤ (updateActions app).uid) ∧
    (∀ cid d k, CbInv ((callback app cid d k).2) ∧
      app.uid ≤ ((callback app cid d k).2).uid) ∧
    (∀ f,
      ((normalize (JSValue.func f) app).2).uid = app.uid + 1 ∧
      (normalize (JSValue.func f) app).1 = JSValue.str (toString (app.uid + 1)) ∧
      ((normalize (JSValue.func f) app).2).callbacks (app.uid + 1) = some f ∧
      app.callbacks (app.uid + 1) = none ∧
      (∀ i, i ≠ app.uid + 1 →
        ((normalize (JSValue.func f) app).2).callbacks i = app.callbacks i)) := by
  refine ⟨?_, ?_, ⟨updateActions_inv app hInv, updateActions_uid_le app⟩, ?_, ?_⟩
  · intro id dp re hr i h
    simp [initApp] at h
  · intro v
    exact ⟨normalize_inv v app hInv, normalize_uid_le v app⟩
  · intro cid d k
    cases hcb : app.callbacks cid with
    | none =>
        simp only [callback, hcb]
        exact ⟨hInv, Nat.le_refl _⟩
    | some g =>
        simp only [callback, hcb]
        by_cases hk : clearsSlot k = true
        · rw [if_pos hk]
          have hInv1 : CbInv { app with
              callbacks := fun i => if i = cid then none else app.callbacks i } := by
            intro i hi
            simp only at hi
            by_cases hic : i = cid
            · simp [hic] at hi
            · simp [hic] at hi
              exact hInv i hi
          exact ⟨updateActions_inv _ hInv1,
            updateActions_uid_le { app with
              callbacks := fun i => if i = cid then none else app.callbacks i }⟩
        · rw [if_neg hk]
          exact ⟨updateActions_inv app hInv, updateActions_uid_le app⟩
  · intro f
    refine ⟨rfl, rfl, by simp [normalize], ?_, ?_⟩
    · cases hc : app.callbacks (app.uid + 1) with
      | none => rfl
      | some g =>
          have := hInv (app.uid + 1) (by simp [hc])
          omega
    · intro i hi
      simp [normalize, hi]

/--
C6, witness instantiating `callback_ids_monotone` at the initial app
state: the first registered function gets id 1 and is stored there.
-/
theorem callback_ids_monotone_witness :
    ((normalize (JSValue.func 5) (initApp "w" true (fun _ => false)
        (fun _ _ _ => JSValue.undef))).2).uid = 1 ∧
    ((normalize (JSValue.func 5) (initApp "w" true (fun _ => false)
        (fun _ _ _ => JSValue.undef))).2).callbacks 1 = some 5 := by
  have hInv : CbInv (initApp "w" true (fun _ => false)
      (fun _ _ _ => JSValue.undef)) := by
    intro i h
    simp [initApp] at h
  have h := (callback_ids_monotone _ hInv).2.2.2.2 5
  exact ⟨h.1, h.2.2.1⟩

/--
C7.  `fireEvent(app, ref, type, event)` on an ordered candidate list
dispatches to each candidate in order and stops at the first handler
whose result is not strictly `=== false`: with candidates `[A, B, C]`
where `A`'s handler returns `false` and `B`'s returns `true`, the
handlers of `A` and then `B` are invoked and `C`'s handler is never
invoked.
-/
theorem fireEvent_candidate_scan (app : App) (t : String) (e : JSValue)
    (A B C : String) (hA : app.refExists A = true)
    (hrA : app.handlerRes A t e = JSValue.jbool false)
    (hB : app.refExists B = true)
    (hrB : app.handlerRes B t e = JSValue.jbool true) :
    invokedList ((fireEvent app (ERef.multi [A, B, C]) t e).2).effects
      = invokedList app.effects ++ [A, B] := by
  simp only [fireEvent, fireMulti]
  rcases hA1 : fireEventSingle app A t e with ⟨resA, appA⟩
  have hA2 : (fireEventSingle app A t e).2 = appA := by rw [hA1]
  have hresA : resA = Except.ok (JSValue.jbool false) := by
    have h := fireEventSingle_fst app A t e hA
    rw [hA1] at h
    simpa [hrA] using h
  subst hresA
  show invokedList (fireMulti appA [B, C] t e).effects
    = invokedList app.effects ++ [A, B]
  have hAre : appA.refExists = app.refExists := by
    rw [← hA2]; exact fireEventSingle_refExists app A t e
  have hAhr : appA.handlerRes = app.handlerRes := by
    rw [← hA2]; exact fireEventSingle_handlerRes app A t e
  have hAinv : invokedList appA.effects = invokedList app.effects ++ [A] := by
    rw [← hA2]; exact fireEventSingle_invoked app A t e hA
  simp only [fireMulti]
  rcases hB1 : fireEventSingle appA B t e with ⟨resB, appB⟩
  have hB2 : (fireEventSingle appA B t e).2 = appB := by rw [hB1]
  have hBex : appA.refExists B = true := by rw [hAre]; exact hB
  have hresB : resB = Except.ok (JSValue.jbool true) := by
    have h := fireEventSingle_fst appA B t e hBex
    rw [hB1] at h
    simpa [hAhr, hrB] using h
  subst hresB
  show invokedList appB.effects = invokedList app.effects ++ [A, B]
  have hBinv : invokedList appB.effects = invokedList appA.effects ++ [B] := by
    rw [← hB2]; exact fireEventSingle_invoked appA B t e hBex
  rw [hBinv, hAinv, List.append_assoc]
  rfl

/--
C7, witness instantiating `fireEvent_candidate_scan` on a concrete app
whose element `a` handles with `false` and `b` with `true`: the invoked
handlers are exactly `a` then `b`, never `c`.
-/
theorem fireEvent_candidate_scan_witness :
    invokedList ((fireEvent c7App (ERef.multi ["a", "b", "c"]) "click"
        JSValue.undef).2).effects = ["a", "b"] := by
  have h := fireEvent_candidate_scan c7App "click" JSValue.undef "a" "b" "c"
    (by decide) (by rfl) (by decide) (by rfl)
  exact h

/--
C9.  `updateActions(app)` on an app with a live document first triggers
the document differ's flush, drains the listener's pending update queue
into a task list, clears the queue, and submits the batch only when the
drained list is non-empty — the submission is exactly one
`sendTasks(app.id, taskList, "-1")` with the fixed sentinel callback id
and the drained tasks' arguments normalized; when the queue is empty the
differ still flushes but nothing is sent and the app is otherwise
untouched.
-/
theorem updateActions_flush_contract (app : App) (hdoc : app.docPresent = true) :
    ((updateActions app).updates = []) ∧
    ((updateActions app).id = app.id) ∧
    (app.updates = [] →
      updateActions app
        = { app with effects := app.effects ++ [Effect.differFlushed] }) ∧
    (app.updates ≠ [] →
      (updateActions app).effects
        = app.effects ++ [Effect.differFlushed,
            Effect.tasksSent app.id (normalizeTasks app.updates app).1 "-1"]) := by
  refine ⟨?_, updateActions_id app, ?_, ?_⟩
  · by_cases hq : app.updates = []
    · simp [updateActions, hq]
    · simp only [updateActions]
      rw [if_pos (by simp [hdoc, hq])]
      rw [callTasks_updates]
  · intro hq
    simp [updateActions, hq]
  · intro hq
    simp only [updateActions]
    rw [if_pos (by simp [hdoc, hq])]
    rw [callTasks_effects]
    have hc := (normalizeTasks_congr app.updates
      { app with updates := [], effects := app.effects ++ [Effect.differFlushed] }
      app rfl rfl).1
    rw [hc]
    simp [List.append_assoc]

/--
C9, witness instantiating `updateActions_flush_contract` on a concrete
app with one pending task: the queue is drained and exactly one batch
tagged with the app id and the sentinel `"-1"` is sent after the differ
flush.
-/
theorem updateActions_flush_contract_witness :
    c9App.docPresent = true ∧
    (updateActions c9App).updates = [] ∧
    (updateActions c9App).effects
      = [Effect.differFlushed,
          Effect.tasksSent "wire" [⟨"createBody", [JSValue.str "ok"]⟩] "-1"] := by
  have h := updateActions_flush_contract c9App rfl
  have h4 := h.2.2.2 (by simp [c9App])
  exact ⟨rfl, h.1, h4⟩

/--
C10.  When the reference argument of `fireEvent` is an ordered candidate
list, the call always returns `undefined` (the result of the handler
that stopped the scan is discarded), and the array branch itself neither
flushes nor signals update-finished — with no candidates the app is
returned completely unchanged, and otherwise the branch only delegates
each candidate to the per-reference dispatch; only the single-reference
success path returns the handler's result, performs exactly one differ
flush and ends with the update-finished signal.
-/
theorem fireEvent_array_returns_undefined (app : App) (refs : List String)
    (t : String) (e : JSValue) (r : String) :
    ((fireEvent app (ERef.multi refs) t e).1 = Except.ok JSValue.undef) ∧
    ((fireEvent app (ERef.multi []) t e).2 = app) ∧
    ((fireEvent app (ERef.multi refs) t e).2 = fireMulti app refs t e) ∧
    (app.refExists r = true →
      (fireEvent app (ERef.single r) t e).1 = Except.ok (app.handlerRes r t e) ∧
      flushCount ((fireEvent app (ERef.single r) t e).2).effects
        = flushCount app.effects + 1 ∧
      ((fireEvent app (ERef.single r) t e).2).effects.getLast?
        = some Effect.updateFinished) := by
  refine ⟨rfl, rfl, rfl, ?_⟩
  intro h
  refine ⟨fireEventSingle_fst app r t e h, ?_, ?_⟩
  · show flushCount ((fireEventSingle app r t e).2).effects
      = flushCount app.effects + 1
    simp only [fireEventSingle, h, if_true]
    rw [flushCount_append, updateActions_flushCount]
    simp [flushCount]
  · show ((fireEventSingle app r t e).2).effects.getLast?
      = some Effect.updateFinished
    simp only [fireEventSingle, h, if_true]
    simp

/--
C10, witness: on a concrete app, a one-candidate array dispatch whose
handler returns a non-`false` string still yields `undefined`, while the
single-reference dispatch on the same element returns the handler's
result and flushes once.
-/
theorem fireEvent_array_returns_undefined_witness :
    c10App.refExists "a" = true ∧
    (fireEvent c10App (ERef.multi ["a"]) "tap" JSValue.undef).1
      = Except.ok JSValue.undef ∧
    (fireEvent c10App (ERef.single "a") "tap" JSValue.undef).1
      = Except.ok (JSValue.str "handled") ∧
    flushCount ((fireEvent c10App (ERef.single "a") "tap"
        JSValue.undef).2).effects = 1 := by
  have h := fireEvent_array_returns_undefined c10App ["a"] "tap" JSValue.undef "a"
  have h4 := h.2.2.2 (by decide)
  exact ⟨by decide, h.1, h4.1, h4.2.1⟩

end Weex
